import Mathlib

/-!
Verification development for the logistik-ai repository.

The Domain Store (SQLAlchemy models in `app/models.py`) is embedded as lists of
rows; the driver-agent tool handlers (`app/agents/driver_agent.py`), the
manager-agent handlers (`app/agents/manager_agent.py`) and the stakeholder
fan-out utilities (`app/utils.py`) are embedded as pure state-passing
functions.  Timestamps (`datetime.utcnow()`) are modelled as an explicit `now`
parameter of type `Nat`; autoincrement primary keys are modelled as
max-id-plus-one.  Python strings handled by the response parser are modelled as
`List Char`; response-parser functions mirror the `str.split` / `str.replace` /
`str.strip` calls of `DriverAgent.process_message`.
-/

namespace Logistik

/-- Members of the `TripStatus` enum in `app/schemas.py`: Python member name
paired with its string value, in declaration order. -/
def tripStatusMembers : List (String × String) :=
  [("ASSIGNED", "assigned"), ("AT_PICKUP", "at_pickup"), ("LOADING", "loading"),
   ("IN_TRANSIT", "in_transit"), ("DELAYED", "delayed"), ("ISSUE_REPORTED", "issue_reported"),
   ("AT_DESTINATION", "at_destination"), ("UNLOADING", "unloading"), ("COMPLETED", "completed")]

/-- The nine stable trip status strings. -/
def tripStatusValues : List String := tripStatusMembers.map Prod.snd

/-- Python attribute access `TripStatus.NAME.value`: `some value` when the
member exists, `none` when the access raises `AttributeError`. -/
def tripStatusMember (name : String) : Option String :=
  (tripStatusMembers.find? (fun m => m.1 == name)).map Prod.snd

/-- Row of the `trips` table (`app/models.py`, class `Trip`).  Coordinate and
time-window columns are display-only floats/datetimes never read by the
operations under verification and are omitted. -/
structure Trip where
  id : Nat
  driver_id : Option Nat
  shipper_id : Option Nat
  consignee_id : Option Nat
  manager_id : Option Nat
  pickup_address : String
  delivery_address : String
  cargo_description : String
  status : String
  created_at : Nat
  updated_at : Nat
deriving DecidableEq

/-- Row of the `status_updates` table (class `StatusUpdate`). -/
structure StatusUpdate where
  trip_id : Nat
  user_id : Nat
  status : String
  notes : Option String
deriving DecidableEq

/-- Row of the `locations` table (class `Location`).  Latitude and longitude
reach the handler as the raw strings parsed from the tool-call text. -/
structure Location where
  trip_id : Nat
  latitude : String
  longitude : String
deriving DecidableEq

/-- Row of the `issues` table (class `Issue`). -/
structure Issue where
  id : Nat
  trip_id : Nat
  reported_by_id : Nat
  description : String
  status : String
  resolved_at : Option Nat
deriving DecidableEq

/-- Row of the `notifications` table (class `Notification`). -/
structure Notification where
  user_id : Nat
  trip_id : Option Nat
  message : String
  is_read : Bool
deriving DecidableEq

/-- Row of the `users` table (class `User`); only the columns the verified
operations read. -/
structure User where
  id : Nat
  role : String
  first_name : String
  last_name : String
deriving DecidableEq

/-- The Domain Store: one list of rows per table. -/
structure DB where
  users : List User
  trips : List Trip
  status_updates : List StatusUpdate
  locations : List Location
  issues : List Issue
  notifications : List Notification
deriving DecidableEq

/-- Python truthiness of an optional integer: `None` and `0` are falsy. -/
def pyTruthyOpt : Option Nat → Bool
  | none => false
  | some n => n != 0

/-- Query `db.query(Trip).filter(Trip.id == tid).first()`. -/
def findTrip (db : DB) (tid : Nat) : Option Trip :=
  db.trips.find? (fun t => t.id == tid)

/-- Query `db.query(User).filter(User.id == uid).first()`. -/
def findUser (db : DB) (uid : Nat) : Option User :=
  db.users.find? (fun u => u.id == uid)

/-- Pick the row with maximal `created_at` (the `.order_by(created_at.desc()).first()`
step of the active-trip query); on equal timestamps the earlier row wins. -/
def latestTrip : List Trip → Option Trip
  | [] => none
  | t :: ts =>
    match latestTrip ts with
    | none => some t
    | some u => if u.created_at > t.created_at then some u else some t

/-- The active-trip query shared by every driver-agent handler:
driver matches, status is not `completed`, newest first. -/
def activeTripFor (db : DB) (driverId : Nat) : Option Trip :=
  latestTrip (db.trips.filter (fun t => decide (t.driver_id = some driverId ∧ t.status ≠ "completed")))

/-- Next autoincrement id for the `issues` table. -/
def nextIssueId (db : DB) : Nat := db.issues.foldr (fun i m => max i.id m) 0 + 1

/-- Next autoincrement id for the `trips` table. -/
def nextTripId (db : DB) : Nat := db.trips.foldr (fun t m => max t.id m) 0 + 1

def noActiveTripsMsg : String := "You don\x27t have any active trips at the moment."

def noActiveUpdateMsg : String := "You don\x27t have any active trips to update."

def noActiveIssueMsg : String := "You don\x27t have any active trips to report issues for."

def noActiveLocationMsg : String := "You don\x27t have any active trips to update location for."

def availableStatusesStr : String := String.intercalate (", ") tripStatusValues

def invalidStatusMsg (status : String) : String :=
  "Invalid status: " ++ status ++ ". Available statuses: " ++ availableStatusesStr

def statusUpdatedMsg (status : String) : String := "Trip status updated to: " ++ status

def issueReportedMsg (description : String) : String := "Issue reported: " ++ description

def locationUpdatedMsg (latitude longitude : String) : String :=
  "Location updated: " ++ latitude ++ ", " ++ longitude

/-- Handler `DriverAgent._update_trip_status` (`driver_agent.py` lines 182-213):
look up the active trip, validate the status string against the `TripStatus`
enum, then in one commit append a `StatusUpdate` row and set the trip status. -/
def update_trip_status (db : DB) (driverId now : Nat) (status : String) (notes : Option String) :
    String × DB :=
  match activeTripFor db driverId with
  | none => (noActiveUpdateMsg, db)
  | some trip =>
    if status ∈ tripStatusValues then
      let su : StatusUpdate := { trip_id := trip.id, user_id := driverId, status := status, notes := notes }
      (statusUpdatedMsg status,
        { db with
          status_updates := db.status_updates ++ [su],
          trips := db.trips.map (fun t =>
            if t.id = trip.id then { t with status := status, updated_at := now } else t) })
    else (invalidStatusMsg status, db)

/-- Handler `DriverAgent._report_issue` (`driver_agent.py` lines 215-249):
look up the active trip, then in one commit append an open `Issue` row, set the
trip status to `issue_reported`, and append the matching `StatusUpdate`. -/
def report_issue (db : DB) (driverId now : Nat) (description : String) : String × DB :=
  match activeTripFor db driverId with
  | none => (noActiveIssueMsg, db)
  | some trip =>
    let issue : Issue :=
      { id := nextIssueId db, trip_id := trip.id, reported_by_id := driverId,
        description := description, status := "open", resolved_at := none }
    let su : StatusUpdate :=
      { trip_id := trip.id, user_id := driverId, status := "issue_reported",
        notes := some ("Issue reported: " ++ description) }
    (issueReportedMsg description,
      { db with
        issues := db.issues ++ [issue],
        status_updates := db.status_updates ++ [su],
        trips := db.trips.map (fun t =>
          if t.id = trip.id then { t with status := "issue_reported", updated_at := now } else t) })

/-- Handler `DriverAgent._update_location` (`driver_agent.py` lines 251-270):
look up the active trip, then append one `Location` row. -/
def update_location (db : DB) (driverId : Nat) (latitude longitude : String) : String × DB :=
  match activeTripFor db driverId with
  | none => (noActiveLocationMsg, db)
  | some trip =>
    (locationUpdatedMsg latitude longitude,
      { db with locations := db.locations ++ [{ trip_id := trip.id, latitude := latitude, longitude := longitude }] })

/-- Truthy stakeholder references of a trip: manager / shipper / consignee in
that order, keeping the non-null non-zero ones. -/
def tripStakeholderRefs (t : Trip) : List Nat :=
  ([t.manager_id, t.shipper_id, t.consignee_id].filter pyTruthyOpt).filterMap (fun r => r)

/-- Utility `get_stakeholders_for_trip` (`app/utils.py` lines 42-59): for the
trip, take manager / shipper / consignee references in that order, keep the
truthy ones, and keep those whose `User` row exists. -/
def get_stakeholders_for_trip (db : DB) (tripId : Nat) : List User :=
  match findTrip db tripId with
  | none => []
  | some trip => (tripStakeholderRefs trip).filterMap (fun i => findUser db i)

/-- Utility `create_notification_for_stakeholders` (`app/utils.py` lines 61-84):
one `Notification` per stakeholder, skipping the excluded user when the
exclusion id is truthy; returns the created rows and commits them. -/
def create_notification_for_stakeholders (db : DB) (tripId : Nat) (message : String)
    (excludeUserId : Option Nat) : List Notification × DB :=
  let stakeholders := get_stakeholders_for_trip db tripId
  let notifications := (stakeholders.filter
      (fun s => !(pyTruthyOpt excludeUserId && s.id == excludeUserId.getD 0))).map
    (fun s => ({ user_id := s.id, trip_id := some tripId, message := message, is_read := false } : Notification))
  (notifications, { db with notifications := db.notifications ++ notifications })

def issueNotFoundMsg (issueId : Nat) : String := "Issue #" ++ toString issueId ++ " not found."

def issueAlreadyResolvedMsg (issueId : Nat) : String :=
  "Issue #" ++ toString issueId ++ " is already resolved."

def issueResolvedMsg (issueId : Nat) : String :=
  "Issue #" ++ toString issueId ++ " has been marked as resolved."

def issueResolvedNotice (description : String) : String :=
  "Your reported issue has been resolved: " ++ description

/-- Handler `ManagerAgent._resolve_issue` (`manager_agent.py` lines 408-433):
mark the issue resolved with a timestamp, then notify the driver of the
issue trip when the trip exists and has a truthy driver reference. -/
def resolve_issue (db : DB) (now issueId : Nat) : String × DB :=
  match db.issues.find? (fun i => i.id == issueId) with
  | none => (issueNotFoundMsg issueId, db)
  | some issue =>
    if issue.status = "resolved" then (issueAlreadyResolvedMsg issueId, db)
    else
      let db1 := { db with issues := db.issues.map (fun i =>
        if i.id = issueId then { i with status := "resolved", resolved_at := some now } else i) }
      match findTrip db1 issue.trip_id with
      | some trip =>
        if pyTruthyOpt trip.driver_id then
          (issueResolvedMsg issueId,
            { db1 with notifications := db1.notifications ++
              [{ user_id := trip.driver_id.getD 0, trip_id := some trip.id,
                 message := issueResolvedNotice issue.description, is_read := false }] })
        else (issueResolvedMsg issueId, db1)
      | none => (issueResolvedMsg issueId, db1)

def missingTripParamsMsg : String :=
  "Error: Missing required parameters. Please provide pickup_address, delivery_address, and cargo_description."

def inProgressAttrErr : String :=
  "AttributeError: type object TripStatus has no attribute IN_PROGRESS"

/-- Python attribute access `TripStatus.NAME.value` as a fallible step:
a missing member raises `AttributeError`. -/
def enumAttr (name : String) : Except String String :=
  match tripStatusMember name with
  | some v => Except.ok v
  | none => Except.error ("AttributeError: type object TripStatus has no attribute " ++ name)

/-- Driver auto-assignment branch of `ManagerAgent._create_new_trip`
(`manager_agent.py` lines 469-491): collect drivers of trips whose status is in
the four listed enum values, then pick the first driver user not among them.
The second attribute access, `TripStatus.IN_PROGRESS`, raises. -/
def autoAssignDriver (db : DB) : Except String (Option Nat) := do
  let s1 ← enumAttr ("ASSIGNED")
  let s2 ← enumAttr ("IN_PROGRESS")
  let s3 ← enumAttr ("LOADING")
  let s4 ← enumAttr ("UNLOADING")
  let activeDriverIds := (db.trips.filter (fun t => [s1, s2, s3, s4].contains t.status)).filterMap
    (fun t => t.driver_id)
  let available := db.users.find? (fun u => u.role == "driver" && !(activeDriverIds.contains u.id))
  return available.map (fun u => u.id)

def driverNotFoundMsg (driverId : Nat) : String :=
  "Error: Driver with ID " ++ toString driverId ++ " not found or is not a driver."

def tripCreatedMsg (tripId : Nat) (pickup delivery cargo : String) : String :=
  "Success: New trip created with ID #" ++ toString tripId ++ ". The trip will transport " ++
    cargo ++ " from " ++ pickup ++ " to " ++ delivery ++ "."

def tripAssignedSuffix (driverName : String) (driverId : Nat) : String :=
  " Trip assigned to driver " ++ driverName ++ " (ID: " ++ toString driverId ++ ")."

def tripUnassignedSuffix : String := " No available drivers found. The trip is unassigned."

/-- Handler `ManagerAgent._create_new_trip` (`manager_agent.py` lines 455-536).
The result is `Except.error` when the Python code raises; the accompanying `DB`
is the store state at that point. -/
def create_new_trip (db : DB) (managerId now : Nat) (pickup delivery cargo : String)
    (driverIdArg shipperId consigneeId : Option Nat) : Except String String × DB :=
  if pickup = "" ∨ delivery = "" ∨ cargo = "" then (Except.ok missingTripParamsMsg, db)
  else
    match (if pyTruthyOpt driverIdArg then Except.ok driverIdArg else autoAssignDriver db) with
    | Except.error e => (Except.error e, db)
    | Except.ok driverId =>
      let validated : Except String (Option String) :=
        if pyTruthyOpt driverId then
          match db.users.find? (fun u => u.id == driverId.getD 0 && u.role == "driver") with
          | none => Except.error (driverNotFoundMsg (driverId.getD 0))
          | some driver => Except.ok (some (driver.first_name ++ " " ++ driver.last_name))
        else Except.ok none
      match validated with
      | Except.error msg => (Except.ok msg, db)
      | Except.ok driverName =>
        let tid := nextTripId db
        let trip : Trip :=
          { id := tid, driver_id := driverId, shipper_id := shipperId, consignee_id := consigneeId,
            manager_id := some managerId, pickup_address := pickup, delivery_address := delivery,
            cargo_description := cargo, status := "assigned", created_at := now, updated_at := now }
        let db1 := { db with trips := db.trips ++ [trip] }
        if pyTruthyOpt driverId then
          (Except.ok (tripCreatedMsg tid pickup delivery cargo ++
              tripAssignedSuffix (driverName.getD "No driver") (driverId.getD 0)),
            { db1 with notifications := db1.notifications ++
              [{ user_id := driverId.getD 0, trip_id := some tid,
                 message := "You have been assigned to a new trip: " ++ pickup ++ " to " ++ delivery,
                 is_read := false }] })
        else (Except.ok (tripCreatedMsg tid pickup delivery cargo ++ tripUnassignedSuffix), db1)

/-- Python str.isspace over the ASCII whitespace characters. -/
def pyIsSpace (c : Char) : Bool :=
  c = ' ' || c = '\t' || c = '\n' || c = '\r' || c = '\x0B' || c = '\x0C'

/-- Python str.strip on a character list. -/
def stripL (s : List Char) : List Char :=
  ((s.dropWhile pyIsSpace).reverse.dropWhile pyIsSpace).reverse

/-- Characterization of a Python string with no leading and no trailing
whitespace: first and last character, when present, are not whitespace. -/
def noEdgeSpace (l : List Char) : Bool :=
  l.head?.all (fun c => !pyIsSpace c) && l.getLast?.all (fun c => !pyIsSpace c)

/-- Python str.split(sep) for a one-character separator. -/
def splitChar (c : Char) : List Char → List (List Char)
  | [] => [[]]
  | x :: xs =>
    match splitChar c xs with
    | [] => [[]]
    | y :: ys => if x = c then [] :: y :: ys else (x :: y) :: ys

/-- Python str.split(sep, 1) for a one-character separator: `some` of the parts
before and after the first occurrence, `none` when the separator is absent. -/
def splitFirst (c : Char) : List Char → Option (List Char × List Char)
  | [] => none
  | x :: xs =>
    if x = c then some ([], xs)
    else (splitFirst c xs).map (fun p => (x :: p.1, p.2))

/-- Python substring test `pat in s`. -/
def containsSub (pat : List Char) : List Char → Bool
  | [] => pat.isEmpty
  | x :: xs => pat.isPrefixOf (x :: xs) || containsSub pat xs

/-- Python str.replace(pat, their empty replacement), written with explicit
fuel so that it is structural; the fuel always covers the scanned length. -/
def removeAllFuel (pat : List Char) : Nat → List Char → List Char
  | _, [] => []
  | 0, s => s
  | fuel + 1, x :: xs =>
    if pat.isPrefixOf (x :: xs) && !pat.isEmpty then
      removeAllFuel pat fuel (xs.drop (pat.length - 1))
    else x :: removeAllFuel pat fuel xs

def removeAll (pat s : List Char) : List Char := removeAllFuel pat s.length s

/-- The literal marker `Tool:` scanned for by `process_message`. -/
def toolMarker : List Char := ['T', 'o', 'o', 'l', ':']

/-- The literal marker scanned for on the parameter line. -/
def paramsMarker : List Char := ['P', 'a', 'r', 'a', 'm', 'e', 't', 'e', 'r', 's', ':']

/-- Python dict assignment `m[k] = v`: replace in place when the key exists,
append otherwise. -/
def dictInsert (m : List (List Char × List Char)) (k v : List Char) :
    List (List Char × List Char) :=
  if m.any (fun p => p.1 == k) then m.map (fun p => if p.1 == k then (k, v) else p)
  else m ++ [(k, v)]

/-- Processing of one comma-separated part (`process_message` lines 126-129):
parts with an equals sign are split at the first one, both sides stripped, and
assigned into the dict; parts without one are skipped. -/
def paramStep (m : List (List Char × List Char)) (param : List Char) :
    List (List Char × List Char) :=
  match splitFirst '=' param with
  | some (k, v) => dictInsert m (stripL k) (stripL v)
  | none => m

/-- Parameter parsing of `DriverAgent.process_message` lines 124-129: split on
commas and fold the parts into a dict. -/
def parseParams (s : List Char) : List (List Char × List Char) :=
  (splitChar ',' s).foldl paramStep []

/-- Outcome of scanning one model reply. -/
inductive Parsed where
  | toolCall (name : List Char) (params : List (List Char × List Char))
  | plainText (content : List Char)
deriving DecidableEq

/-- Tool-call extraction of `DriverAgent.process_message` lines 110-130: when
the marker occurs, split the stripped reply into lines, take the first line
starting with each marker, delete the marker text and strip. -/
def parseResponse (response : List Char) : Parsed :=
  if containsSub toolMarker response then
    match (splitChar '\n' (stripL response)).find? (fun l => toolMarker.isPrefixOf l),
          (splitChar '\n' (stripL response)).find? (fun l => paramsMarker.isPrefixOf l) with
    | some toolLine, some paramsLine =>
      Parsed.toolCall (stripL (removeAll toolMarker toolLine))
        (parseParams (stripL (removeAll paramsMarker paramsLine)))
    | _, _ => Parsed.plainText response
  else Parsed.plainText response

def pieceOf (kv : List Char × List Char) : List Char := kv.1 ++ '=' :: kv.2

/-- Wire-format serialization of a parameter map: `k1=v1, k2=v2, ...`. -/
def serializeParams : List (List Char × List Char) → List Char
  | [] => []
  | [kv] => pieceOf kv
  | kv :: rest => pieceOf kv ++ ',' :: ' ' :: serializeParams rest

/-- Wire-format serialization of a tool call (spec section 6):
`Tool: <name>` newline `Parameters: k1=v1, k2=v2, ...`. -/
def serializeToolCall (name : List Char) (params : List (List Char × List Char)) : List Char :=
  toolMarker ++ ' ' :: name ++ '\n' :: paramsMarker ++ ' ' :: serializeParams params

/-- Names of the five tools registered by `DriverAgent._create_tools`. -/
def driverToolNames : List String :=
  ["get_current_trip", "update_trip_status", "report_issue", "update_location", "get_trip_history"]

def genericErrorMsg : String :=
  "I\x27m sorry, I encountered an error while processing your message. Please try again or contact support if the issue persists."

/-- Python keyword binding `tool.func(**params)`: every required parameter is
present and no unexpected key occurs; otherwise the call raises TypeError,
which the catch-all of `process_message` turns into the generic error reply. -/
def kwargsOk (params : List (String × String)) (required optional : List String) : Bool :=
  required.all (fun k => params.any (fun p => p.1 == k)) &&
  params.all (fun p => (required ++ optional).contains p.1)

def kwLookup (params : List (String × String)) (k : String) : Option String :=
  (params.find? (fun p => p.1 == k)).map Prod.snd

/-- Display text of `_get_current_trip`; whitespace layout of the multi-line
f-string is condensed to one line. -/
def formatCurrentTrip (db : DB) (driverId : Nat) : String :=
  match activeTripFor db driverId with
  | none => noActiveTripsMsg
  | some trip =>
    "Trip #" ++ toString trip.id ++ ": - Status: " ++ trip.status ++
      " - Pickup: " ++ trip.pickup_address ++ " - Delivery: " ++ trip.delivery_address ++
      " - Cargo: " ++ trip.cargo_description

def noHistoryMsg : String := "You don\x27t have any trip history."

def insertByCreated (t : Trip) : List Trip → List Trip
  | [] => [t]
  | u :: us => if u.created_at > t.created_at then u :: insertByCreated t us else t :: u :: us

/-- Display text of `_get_trip_history`: the five newest trips of the driver;
whitespace layout of the multi-line f-string is condensed. -/
def formatTripHistory (db : DB) (driverId : Nat) : String :=
  let trips := ((db.trips.filter (fun t => t.driver_id == some driverId)).foldr insertByCreated []).take 5
  if trips.isEmpty then noHistoryMsg
  else trips.foldl (fun acc t =>
    acc ++ " Trip #" ++ toString t.id ++ ": - Status: " ++ t.status ++
      " - Pickup: " ++ t.pickup_address ++ " - Delivery: " ++ t.delivery_address) "Your recent trips:"

/-- Execution of a resolved driver tool (`process_message` line 137,
`tool.func(**params)`), with the keyword binding made explicit. -/
def execDriverTool (db : DB) (driverId now : Nat) (name : String)
    (params : List (String × String)) : String × DB :=
  if name = "get_current_trip" then
    if kwargsOk params [] [] then (formatCurrentTrip db driverId, db) else (genericErrorMsg, db)
  else if name = "update_trip_status" then
    if kwargsOk params ["status"] ["notes"] then
      update_trip_status db driverId now ((kwLookup params ("status")).getD "") (kwLookup params ("notes"))
    else (genericErrorMsg, db)
  else if name = "report_issue" then
    if kwargsOk params ["description"] [] then
      report_issue db driverId now ((kwLookup params ("description")).getD "")
    else (genericErrorMsg, db)
  else if name = "update_location" then
    if kwargsOk params ["latitude", "longitude"] [] then
      update_location db driverId ((kwLookup params ("latitude")).getD "")
        ((kwLookup params ("longitude")).getD "")
    else (genericErrorMsg, db)
  else if name = "get_trip_history" then
    if kwargsOk params [] [] then (formatTripHistory db driverId, db) else (genericErrorMsg, db)
  else (genericErrorMsg, db)

/-- Post-model part of `DriverAgent.process_message` (lines 110-148): scan the
reply for a tool call, look the name up in the registry, execute on a hit, and
return the raw reply text otherwise. -/
def processResponse (db : DB) (driverId now : Nat) (response : List Char) : String × DB :=
  match parseResponse response with
  | Parsed.plainText _ => (String.mk response, db)
  | Parsed.toolCall nameC paramsC =>
    if driverToolNames.contains (String.mk nameC) then
      execDriverTool db driverId now (String.mk nameC)
        (paramsC.map (fun p => (String.mk p.1, String.mk p.2)))
    else (String.mk response, db)

def emptyDB : DB :=
  { users := [], trips := [], status_updates := [], locations := [], issues := [],
    notifications := [] }

def tripI : Trip :=
  { id := 1, driver_id := some 1, shipper_id := none, consignee_id := none,
    manager_id := some 2, pickup_address := "A", delivery_address := "B",
    cargo_description := "C", status := "issue_reported", created_at := 0, updated_at := 0 }

def issueI : Issue :=
  { id := 1, trip_id := 1, reported_by_id := 1, description := "flat tire",
    status := "open", resolved_at := none }

def dbI : DB :=
  { users := [{ id := 1, role := "driver", first_name := "D", last_name := "X" },
              { id := 2, role := "manager", first_name := "M", last_name := "Y" }],
    trips := [tripI], status_updates := [], locations := [], issues := [issueI],
    notifications := [] }

def tripW : Trip :=
  { id := 1, driver_id := some 1, shipper_id := none, consignee_id := none,
    manager_id := some 2, pickup_address := "A", delivery_address := "B",
    cargo_description := "C", status := "assigned", created_at := 0, updated_at := 0 }

def userDriverW : User := { id := 1, role := "driver", first_name := "D", last_name := "X" }

def userManagerW : User := { id := 2, role := "manager", first_name := "M", last_name := "Y" }

def dbW : DB :=
  { users := [userDriverW, userManagerW], trips := [tripW], status_updates := [],
    locations := [], issues := [], notifications := [] }

def tripC : Trip :=
  { id := 1, driver_id := some 1, shipper_id := none, consignee_id := none,
    manager_id := some 2, pickup_address := "A", delivery_address := "B",
    cargo_description := "C", status := "completed", created_at := 0, updated_at := 0 }

def dbC : DB :=
  { users := [userDriverW, userManagerW], trips := [tripC], status_updates := [],
    locations := [], issues := [], notifications := [] }

theorem latestTrip_mem {l : List Trip} {t : Trip} (h : latestTrip l = some t) : t ∈ l := by
  induction l with
  | nil => simp [latestTrip] at h
  | cons x xs ih =>
    cases hx : latestTrip xs with
    | none =>
      simp only [latestTrip, hx] at h
      injection h with h; exact h ▸ List.mem_cons_self x xs
    | some u =>
      simp only [latestTrip, hx] at h
      by_cases hc : u.created_at > x.created_at
      · rw [if_pos hc] at h; injection h with h
        exact List.mem_cons_of_mem x (ih (h ▸ hx))
      · rw [if_neg hc] at h; injection h with h; exact h ▸ List.mem_cons_self x xs

theorem latestTrip_eq_none {l : List Trip} (h : l = []) : latestTrip l = none := by
  subst h; rfl

theorem activeTripFor_spec {db : DB} {d : Nat} {t : Trip} (h : activeTripFor db d = some t) :
    t ∈ db.trips ∧ t.driver_id = some d ∧ t.status ≠ "completed" := by
  have hm := latestTrip_mem h
  rw [List.mem_filter] at hm
  exact ⟨hm.1, of_decide_eq_true hm.2⟩

theorem activeTripFor_eq_none {db : DB} {d : Nat}
    (h : ∀ t ∈ db.trips, t.driver_id = some d → t.status = "completed") :
    activeTripFor db d = none := by
  unfold activeTripFor
  rw [List.filter_eq_nil_iff.mpr ?_]
  · rfl
  · intro t ht
    simp only [decide_eq_true_eq, not_and, not_not]
    exact h t ht

theorem find?_update_eq {l : List Trip} {t0 : Trip} (g : Trip → Trip)
    (hg : ∀ t, (g t).id = t.id)
    (hn : (l.map Trip.id).Nodup) (hm : t0 ∈ l) :
    (l.map (fun t => if t.id = t0.id then g t else t)).find? (fun t => t.id == t0.id)
      = some (g t0) := by
  induction l with
  | nil => cases hm
  | cons x xs ih =>
    rw [List.map_cons, List.nodup_cons] at hn
    rw [List.map_cons]
    by_cases hx : x.id = t0.id
    · have hxt : x = t0 := by
        rcases List.mem_cons.mp hm with h | h
        · exact h.symm
        · exact absurd (hx ▸ List.mem_map_of_mem Trip.id h) hn.1
      rw [if_pos hx]
      have hp : ((g x).id == t0.id) = true := by
        rw [hg, hx]; exact beq_self_eq_true _
      rw [List.find?_cons]
      simp only [hxt] at hp
      simp only [hxt, hp]
    · have hm2 : t0 ∈ xs := by
        rcases List.mem_cons.mp hm with h | h
        · exact absurd (h ▸ rfl) hx
        · exact h
      rw [if_neg hx]
      have hp : (x.id == t0.id) = false := beq_eq_false_iff_ne.mpr hx
      rw [List.find?_cons]
      simp only [hp]
      exact ih hn.2 hm2

theorem find?_update_ne {l : List Trip} (tid uid : Nat) (g : Trip → Trip)
    (hg : ∀ t, (g t).id = t.id) (hne : uid ≠ tid) :
    (l.map (fun t => if t.id = tid then g t else t)).find? (fun t => t.id == uid)
      = l.find? (fun t => t.id == uid) := by
  induction l with
  | nil => rfl
  | cons x xs ih =>
    rw [List.map_cons]
    by_cases hx : x.id = tid
    · rw [if_pos hx]
      have h1 : ((g x).id == uid) = false := by
        rw [hg, hx]; exact beq_eq_false_iff_ne.mpr (fun h => hne h.symm)
      have h2 : (x.id == uid) = false := by
        rw [hx]; exact beq_eq_false_iff_ne.mpr (fun h => hne h.symm)
      rw [List.find?_cons, List.find?_cons]
      simp only [h1, h2]
      exact ih
    · rw [if_neg hx]
      by_cases hu : x.id = uid
      · have h3 : (x.id == uid) = true := by
          rw [hu]; exact beq_self_eq_true _
        rw [List.find?_cons, List.find?_cons]
        simp only [h3]
      · have h4 : (x.id == uid) = false := beq_eq_false_iff_ne.mpr hu
        rw [List.find?_cons, List.find?_cons]
        simp only [h4]
        exact ih

/-- C1: for every status-update request by a driver, success means exactly one
new StatusUpdate row carrying the requested status is appended and the Trip
status is set to that value in the same operation; failure (no active trip or
invalid status value) means the store is unchanged. -/
theorem c1_transition_atomicity (db : DB) (d now : Nat) (status : String) (notes : Option String)
    (wf : (db.trips.map Trip.id).Nodup) :
    (∀ t, activeTripFor db d = some t → status ∈ tripStatusValues →
      (update_trip_status db d now status notes).1 = statusUpdatedMsg status ∧
      (update_trip_status db d now status notes).2.status_updates =
        db.status_updates ++ [{ trip_id := t.id, user_id := d, status := status, notes := notes }] ∧
      findTrip (update_trip_status db d now status notes).2 t.id =
        some { t with status := status, updated_at := now }) ∧
    (activeTripFor db d = none →
      update_trip_status db d now status notes = (noActiveUpdateMsg, db)) ∧
    (∀ t, activeTripFor db d = some t → status ∉ tripStatusValues →
      update_trip_status db d now status notes = (invalidStatusMsg status, db)) := by
  refine ⟨?_, ?_, ?_⟩
  · intro t ht hs
    have hmem := (activeTripFor_spec ht).1
    refine ⟨?_, ?_, ?_⟩
    · simp [update_trip_status, ht, hs]
    · simp [update_trip_status, ht, hs]
    · simp only [update_trip_status, ht, if_pos hs, findTrip]
      exact find?_update_eq (fun u => { u with status := status, updated_at := now })
        (fun _ => rfl) wf hmem
  · intro h
    simp [update_trip_status, h]
  · intro t ht hs
    simp [update_trip_status, ht, hs]

theorem c1_transition_atomicity_witness :
    (update_trip_status dbW 1 5 ("at_pickup") none).1 = statusUpdatedMsg ("at_pickup") ∧
    (update_trip_status dbW 1 5 ("at_pickup") none).2.status_updates =
      dbW.status_updates ++
        [{ trip_id := tripW.id, user_id := 1, status := "at_pickup", notes := none }] ∧
    findTrip (update_trip_status dbW 1 5 ("at_pickup") none).2 tripW.id =
      some { tripW with status := "at_pickup", updated_at := 5 } :=
  (c1_transition_atomicity dbW 1 5 ("at_pickup") none (by decide)).1 tripW (by decide) (by decide)

theorem filter_append_single_ne {l : List StatusUpdate} {su : StatusUpdate} {tid : Nat}
    (h : su.trip_id ≠ tid) :
    (l ++ [su]).filter (fun r => r.trip_id == tid) = l.filter (fun r => r.trip_id == tid) := by
  rw [List.filter_append]
  have : (su.trip_id == tid) = false := beq_eq_false_iff_ne.mpr h
  simp [List.filter, this]

/-- C2: every transition request by the driver of a completed trip is rejected
with the no-active-trip message and changes nothing; a completed trip is never
touched by any of the three transition handlers; requests resolving to a
non-completed trip are accepted. -/
theorem c2_terminal_invariant (db : DB) (d now : Nat) (status : String) (notes : Option String)
    (description lat lng : String) (wf : (db.trips.map Trip.id).Nodup) :
    ((∀ t ∈ db.trips, t.driver_id = some d → t.status = "completed") →
      update_trip_status db d now status notes = (noActiveUpdateMsg, db) ∧
      report_issue db d now description = (noActiveIssueMsg, db) ∧
      update_location db d lat lng = (noActiveLocationMsg, db)) ∧
    (∀ t ∈ db.trips, t.status = "completed" →
      (findTrip (update_trip_status db d now status notes).2 t.id = findTrip db t.id ∧
        (update_trip_status db d now status notes).2.status_updates.filter (fun r => r.trip_id == t.id)
          = db.status_updates.filter (fun r => r.trip_id == t.id) ∧
        (update_trip_status db d now status notes).2.notifications = db.notifications) ∧
      (findTrip (report_issue db d now description).2 t.id = findTrip db t.id ∧
        (report_issue db d now description).2.status_updates.filter (fun r => r.trip_id == t.id)
          = db.status_updates.filter (fun r => r.trip_id == t.id) ∧
        (report_issue db d now description).2.notifications = db.notifications) ∧
      (findTrip (update_location db d lat lng).2 t.id = findTrip db t.id ∧
        (update_location db d lat lng).2.status_updates = db.status_updates ∧
        (update_location db d lat lng).2.notifications = db.notifications)) ∧
    (∀ t, activeTripFor db d = some t →
      (status ∈ tripStatusValues →
        (update_trip_status db d now status notes).1 = statusUpdatedMsg status) ∧
      (report_issue db d now description).1 = issueReportedMsg description ∧
      (update_location db d lat lng).1 = locationUpdatedMsg lat lng) := by
  refine ⟨?_, ?_, ?_⟩
  · intro h
    have hnone := activeTripFor_eq_none h
    exact ⟨by simp [update_trip_status, hnone], by simp [report_issue, hnone],
      by simp [update_location, hnone]⟩
  · intro t ht hc
    refine ⟨?_, ?_, ?_⟩
    · cases ha : activeTripFor db d with
      | none => simp [update_trip_status, ha]
      | some u =>
        obtain ⟨hu, _, hus⟩ := activeTripFor_spec ha
        have hne : t.id ≠ u.id := by
          intro h
          exact hus (congrArg Trip.status (List.inj_on_of_nodup_map wf hu ht h.symm) ▸ hc)
        by_cases hs : status ∈ tripStatusValues
        · refine ⟨?_, ?_, ?_⟩
          · simp only [update_trip_status, ha, if_pos hs, findTrip]
            exact find?_update_ne u.id t.id _ (fun _ => rfl) hne
          · simp only [update_trip_status, ha, if_pos hs]
            exact filter_append_single_ne (by simpa using fun h => hne h.symm)
          · simp [update_trip_status, ha, hs]
        · simp [update_trip_status, ha, hs]
    · cases ha : activeTripFor db d with
      | none => simp [report_issue, ha]
      | some u =>
        obtain ⟨hu, _, hus⟩ := activeTripFor_spec ha
        have hne : t.id ≠ u.id := by
          intro h
          exact hus (congrArg Trip.status (List.inj_on_of_nodup_map wf hu ht h.symm) ▸ hc)
        refine ⟨?_, ?_, ?_⟩
        · simp only [report_issue, findTrip, ha]
          exact find?_update_ne u.id t.id _ (fun _ => rfl) hne
        · simp only [report_issue, ha]
          exact filter_append_single_ne (by simpa using fun h => hne h.symm)
        · simp [report_issue, ha]
    · cases ha : activeTripFor db d with
      | none => simp [update_location, ha]
      | some u => simp [update_location, ha, findTrip]
  · intro t ht
    exact ⟨fun hs => by simp [update_trip_status, ht, hs],
      by simp [report_issue, ht], by simp [update_location, ht]⟩

theorem c2_terminal_invariant_witness :
    update_trip_status dbC 1 5 ("at_pickup") none = (noActiveUpdateMsg, dbC) ∧
    report_issue dbC 1 5 ("flat tire") = (noActiveIssueMsg, dbC) ∧
    update_location dbC 1 ("4.6") ("-74.0") = (noActiveLocationMsg, dbC) ∧
    (update_trip_status dbW 1 5 ("at_pickup") none).1 = statusUpdatedMsg ("at_pickup") := by
  have h1 := (c2_terminal_invariant dbC 1 5 ("at_pickup") none ("flat tire") ("4.6") ("-74.0")
    (by decide)).1 (by decide)
  have h2 := ((c2_terminal_invariant dbW 1 5 ("at_pickup") none ("flat tire") ("4.6") ("-74.0")
    (by decide)).2.2 tripW (by decide)).1 (by decide)
  exact ⟨h1.1, h1.2.1, h1.2.2, h2⟩

/-- C4: for a driver with an active trip, `report_issue` appends exactly one
open Issue row with the given description, appends exactly one StatusUpdate
with status `issue_reported`, and sets the trip status to `issue_reported`,
all in one commit. -/
theorem c4_issue_compound (db : DB) (d now : Nat) (description : String)
    (wf : (db.trips.map Trip.id).Nodup) :
    ∀ t, activeTripFor db d = some t →
      (report_issue db d now description).1 = issueReportedMsg description ∧
      (report_issue db d now description).2.issues =
        db.issues ++ [{ id := nextIssueId db, trip_id := t.id, reported_by_id := d,
                        description := description, status := "open", resolved_at := none }] ∧
      (report_issue db d now description).2.status_updates =
        db.status_updates ++ [{ trip_id := t.id, user_id := d, status := "issue_reported",
                                notes := some ("Issue reported: " ++ description) }] ∧
      findTrip (report_issue db d now description).2 t.id =
        some { t with status := "issue_reported", updated_at := now } := by
  intro t ht
  have hmem := (activeTripFor_spec ht).1
  refine ⟨?_, ?_, ?_, ?_⟩
  · simp [report_issue, ht]
  · simp [report_issue, ht]
  · simp [report_issue, ht]
  · simp only [report_issue, ht, findTrip]
    exact find?_update_eq (fun u => { u with status := "issue_reported", updated_at := now })
      (fun _ => rfl) wf hmem

theorem c4_issue_compound_witness :
    (report_issue dbW 1 5 ("flat tire")).1 = issueReportedMsg ("flat tire") ∧
    (report_issue dbW 1 5 ("flat tire")).2.issues =
      dbW.issues ++ [{ id := nextIssueId dbW, trip_id := tripW.id, reported_by_id := 1,
                       description := "flat tire", status := "open", resolved_at := none }] ∧
    (report_issue dbW 1 5 ("flat tire")).2.status_updates =
      dbW.status_updates ++ [{ trip_id := tripW.id, user_id := 1, status := "issue_reported",
                               notes := some ("Issue reported: " ++ "flat tire") }] ∧
    findTrip (report_issue dbW 1 5 ("flat tire")).2 tripW.id =
      some { tripW with status := "issue_reported", updated_at := 5 } :=
  c4_issue_compound dbW 1 5 ("flat tire") (by decide) tripW (by decide)

/-- C9: resolving an unresolved issue marks it resolved with the timestamp,
leaves every other table unchanged except one notification to the driver of
the issue trip (when the trip exists and has a truthy driver reference), and
resolving an already-resolved issue changes nothing. -/
theorem c9_resolve_issue_frame (db : DB) (now issueId : Nat) (issue : Issue)
    (hfind : db.issues.find? (fun i => i.id == issueId) = some issue) :
    (issue.status ≠ "resolved" →
      (resolve_issue db now issueId).1 = issueResolvedMsg issueId ∧
      (resolve_issue db now issueId).2.trips = db.trips ∧
      (resolve_issue db now issueId).2.status_updates = db.status_updates ∧
      (resolve_issue db now issueId).2.locations = db.locations ∧
      (resolve_issue db now issueId).2.users = db.users ∧
      (resolve_issue db now issueId).2.issues = db.issues.map (fun i =>
        if i.id = issueId then { i with status := "resolved", resolved_at := some now } else i) ∧
      (resolve_issue db now issueId).2.notifications = db.notifications ++
        (match findTrip db issue.trip_id with
         | some trip =>
           if pyTruthyOpt trip.driver_id then
             [{ user_id := trip.driver_id.getD 0, trip_id := some trip.id,
                message := issueResolvedNotice issue.description, is_read := false }]
           else []
         | none => [])) ∧
    (issue.status = "resolved" →
      resolve_issue db now issueId = (issueAlreadyResolvedMsg issueId, db)) := by
  constructor
  · intro hns
    cases htr : findTrip db issue.trip_id with
    | none =>
      simp only [resolve_issue, hfind, if_neg hns, findTrip] at htr ⊢
      simp [htr]
    | some trip =>
      by_cases hd : pyTruthyOpt trip.driver_id
      · simp only [resolve_issue, hfind, if_neg hns, findTrip] at htr ⊢
        simp [htr, hd]
      · simp only [resolve_issue, hfind, if_neg hns, findTrip] at htr ⊢
        simp [htr, hd]
  · intro hr
    simp [resolve_issue, hfind, hr]

theorem c9_resolve_issue_frame_witness :
    (resolve_issue dbI 7 1).1 = issueResolvedMsg 1 ∧
    (resolve_issue dbI 7 1).2.trips = dbI.trips ∧
    (resolve_issue dbI 7 1).2.notifications = dbI.notifications ++
      [{ user_id := 1, trip_id := some 1, message := issueResolvedNotice ("flat tire"),
         is_read := false }] := by
  have h := (c9_resolve_issue_frame dbI 7 1 issueI (by decide)).1 (by decide)
  exact ⟨h.1, h.2.1, h.2.2.2.2.2.2⟩

/-- C10: invoking `create_new_trip` without a driver id reaches the
auto-assignment branch, whose reference to the non-member `IN_PROGRESS` raises
AttributeError before any store write; the store is unchanged for every such
invocation, so no trip is ever created without an explicit driver id. -/
theorem c10_auto_assignment_raises (db : DB) (managerId now : Nat)
    (pickup delivery cargo : String) (shipperId consigneeId : Option Nat) :
    (create_new_trip db managerId now pickup delivery cargo none shipperId consigneeId).2 = db ∧
    (pickup ≠ "" → delivery ≠ "" → cargo ≠ "" →
      (create_new_trip db managerId now pickup delivery cargo none shipperId consigneeId).1 =
        Except.error inProgressAttrErr) := by
  have hauto : autoAssignDriver db = Except.error inProgressAttrErr := rfl
  constructor
  · by_cases hm : pickup = "" ∨ delivery = "" ∨ cargo = ""
    · simp [create_new_trip, hm]
    · simp only [create_new_trip, if_neg hm]
      simp [pyTruthyOpt, hauto]
  · intro h1 h2 h3
    have hm : ¬ (pickup = "" ∨ delivery = "" ∨ cargo = "") := by
      simp [h1, h2, h3]
    simp only [create_new_trip, if_neg hm]
    simp [pyTruthyOpt, hauto]

theorem c10_auto_assignment_raises_witness :
    (create_new_trip emptyDB 2 9 ("A") ("B") ("C") none none none).1 =
      Except.error inProgressAttrErr ∧
    (create_new_trip emptyDB 2 9 ("A") ("B") ("C") none none none).2 = emptyDB :=
  ⟨(c10_auto_assignment_raises emptyDB 2 9 ("A") ("B") ("C") none none).2
      (by decide) (by decide) (by decide),
    (c10_auto_assignment_raises emptyDB 2 9 ("A") ("B") ("C") none none).1⟩

/-- C6 amended: an invalid status value never mutates the store; when the
driver has an active trip the reply is the invalid-status text naming the
value, and otherwise it is the no-active-trip text. -/
theorem c6_invalid_status (db : DB) (d now : Nat) (status : String) (notes : Option String)
    (hs : status ∉ tripStatusValues) :
    (update_trip_status db d now status notes).2 = db ∧
    (∀ t, activeTripFor db d = some t →
      (update_trip_status db d now status notes).1 = invalidStatusMsg status) ∧
    (activeTripFor db d = none →
      (update_trip_status db d now status notes).1 = noActiveUpdateMsg) := by
  refine ⟨?_, ?_, ?_⟩
  · cases ha : activeTripFor db d with
    | none => simp [update_trip_status, ha]
    | some t => simp [update_trip_status, ha, hs]
  · intro t ht
    simp [update_trip_status, ht, hs]
  · intro h
    simp [update_trip_status, h]

theorem c6_invalid_status_witness :
    (update_trip_status dbW 1 5 ("teleporting") none).2 = dbW ∧
    (update_trip_status dbW 1 5 ("teleporting") none).1 = invalidStatusMsg ("teleporting") := by
  have h := c6_invalid_status dbW 1 5 ("teleporting") none (by decide)
  exact ⟨h.1, h.2.1 tripW (by decide)⟩

theorem c6_invalid_status_counterexample :
    ("teleporting" : String) ∉ tripStatusValues ∧
    (update_trip_status emptyDB 1 0 ("teleporting") none).1 = noActiveUpdateMsg ∧
    containsSub (("teleporting").toList)
      ((update_trip_status emptyDB 1 0 ("teleporting") none).1).toList = false := by
  refine ⟨by decide, by decide, by decide⟩

theorem findUser_id {db : DB} {i : Nat} {u : User} (h : findUser db i = some u) : u.id = i := by
  have := List.find?_some h
  simpa using this

theorem filterMap_findUser_map_id (db : DB) : ∀ (l : List Nat),
    (∀ i ∈ l, (findUser db i).isSome = true) →
    (l.filterMap (fun i => findUser db i)).map User.id = l := by
  intro l
  induction l with
  | nil => intro _; rfl
  | cons i is ih =>
    intro h
    have hi := h i (List.mem_cons_self i is)
    cases hu : findUser db i with
    | none => rw [hu] at hi; simp at hi
    | some u =>
      simp only [List.filterMap_cons, hu, List.map_cons]
      rw [findUser_id hu, ih (fun j hj => h j (List.mem_cons_of_mem _ hj))]

theorem map_id_filter_ne (actor : Nat) : ∀ (l : List User),
    (l.filter (fun s => !(s.id == actor))).map User.id =
      (l.map User.id).filter (fun i => !(i == actor)) := by
  intro l
  induction l with
  | nil => rfl
  | cons u us ih =>
    simp only [List.filter_cons, List.map_cons]
    cases hb : !(u.id == actor) <;> simp [hb, ih]

/-- C3 amended: the three driver transition handlers create no notifications;
the fan-out utility, when invoked, creates exactly one notification per truthy
stakeholder reference of the trip whose user row exists, excluding the actor,
each carrying the given message and trip reference. -/
theorem c3_notification_fanout (db : DB) (d now : Nat) (status : String) (notes : Option String)
    (description lat lng message : String) (tripId actor : Nat) (trip : Trip)
    (hfind : findTrip db tripId = some trip)
    (hex : ∀ i ∈ tripStakeholderRefs trip, (findUser db i).isSome = true)
    (hactor : actor ≠ 0) :
    (update_trip_status db d now status notes).2.notifications = db.notifications ∧
    (report_issue db d now description).2.notifications = db.notifications ∧
    (update_location db d lat lng).2.notifications = db.notifications ∧
    (create_notification_for_stakeholders db tripId message (some actor)).2.notifications =
      db.notifications ++ (create_notification_for_stakeholders db tripId message (some actor)).1 ∧
    ((create_notification_for_stakeholders db tripId message (some actor)).1).map
        Notification.user_id =
      (tripStakeholderRefs trip).filter (fun i => i != actor) ∧
    (∀ n ∈ (create_notification_for_stakeholders db tripId message (some actor)).1,
      n.message = message ∧ n.trip_id = some tripId ∧ n.is_read = false) := by
  have hne0 : (actor != 0) = true := by simpa using hactor
  have hq : (fun s : User => !(pyTruthyOpt (some actor) && s.id == (some actor).getD 0)) =
      (fun s : User => !(s.id == actor)) := by
    funext s
    simp [pyTruthyOpt, hne0]
  refine ⟨?_, ?_, ?_, rfl, ?_, ?_⟩
  · cases ha : activeTripFor db d with
    | none => simp [update_trip_status, ha]
    | some t =>
      by_cases hs : status ∈ tripStatusValues
      · simp [update_trip_status, ha, hs]
      · simp [update_trip_status, ha, hs]
  · cases ha : activeTripFor db d with
    | none => simp [report_issue, ha]
    | some t => simp [report_issue, ha]
  · cases ha : activeTripFor db d with
    | none => simp [update_location, ha]
    | some t => simp [update_location, ha]
  · have hcre : (create_notification_for_stakeholders db tripId message (some actor)).1 =
        ((get_stakeholders_for_trip db tripId).filter (fun s => !(s.id == actor))).map
          (fun s =>
            ({ user_id := s.id, trip_id := some tripId, message := message, is_read := false } :
              Notification)) := by
      simp only [create_notification_for_stakeholders]
      rw [hq]
    rw [hcre, List.map_map]
    have hcomp : (Notification.user_id ∘ fun s : User =>
        ({ user_id := s.id, trip_id := some tripId, message := message, is_read := false } :
          Notification)) = User.id := rfl
    rw [hcomp, map_id_filter_ne]
    simp only [get_stakeholders_for_trip, hfind]
    rw [filterMap_findUser_map_id db _ hex]
    rfl
  · intro n hn
    simp only [create_notification_for_stakeholders, List.mem_map, List.mem_filter] at hn
    obtain ⟨s, _, hs⟩ := hn
    rw [← hs]
    exact ⟨rfl, rfl, rfl⟩

theorem c3_notification_fanout_witness :
    (update_trip_status dbW 1 5 ("at_pickup") none).2.notifications = dbW.notifications ∧
    ((create_notification_for_stakeholders dbW 1 ("Trip update") (some 1)).1).map
        Notification.user_id =
      (tripStakeholderRefs tripW).filter (fun i => i != 1) := by
  have h := c3_notification_fanout dbW 1 5 ("at_pickup") none ("d") ("la") ("lo")
    ("Trip update") 1 1 tripW (by decide) (by decide) (by decide)
  exact ⟨h.1, h.2.2.2.2.1⟩

theorem c3_notification_fanout_counterexample :
    (update_trip_status dbW 1 5 ("at_pickup") none).1 = statusUpdatedMsg ("at_pickup") ∧
    get_stakeholders_for_trip dbW 1 = [userManagerW] ∧
    (update_trip_status dbW 1 5 ("at_pickup") none).2.notifications = [] := by
  refine ⟨by decide, by decide, by decide⟩

/-- C7: a model reply without the literal `Tool:` marker parses as plain text
equal to the reply, and the dispatcher returns it unchanged with no store
mutation. -/
theorem c7_parser_fallback (db : DB) (d now : Nat) (response : List Char)
    (h : containsSub toolMarker response = false) :
    parseResponse response = Parsed.plainText response ∧
    processResponse db d now response = (String.mk response, db) := by
  have hp : parseResponse response = Parsed.plainText response := by
    simp [parseResponse, h]
  exact ⟨hp, by simp [processResponse, hp]⟩

theorem c7_parser_fallback_witness :
    processResponse emptyDB 1 0 (("Hello driver").toList) =
      (String.mk (("Hello driver").toList), emptyDB) :=
  (c7_parser_fallback emptyDB 1 0 (("Hello driver").toList) (by decide)).2

/-- C5: a parsed tool call whose name is not in the driver tool registry makes
the dispatcher return the raw model text and leaves the store untouched. -/
theorem c5_unresolvable_tool (db : DB) (d now : Nat) (response nameC : List Char)
    (paramsC : List (List Char × List Char))
    (hparse : parseResponse response = Parsed.toolCall nameC paramsC)
    (hreg : driverToolNames.contains (String.mk nameC) = false) :
    processResponse db d now response = (String.mk response, db) := by
  have hc : driverToolNames.contains (String.mk nameC) ≠ true := by
    rw [hreg]
    exact Bool.false_ne_true
  simp only [processResponse, hparse]
  rw [if_neg hc]

theorem c5_unresolvable_tool_witness :
    processResponse emptyDB 1 0 (("Tool: fly_home\nParameters: x=1").toList) =
      (String.mk (("Tool: fly_home\nParameters: x=1").toList), emptyDB) :=
  c5_unresolvable_tool emptyDB 1 0 (("Tool: fly_home\nParameters: x=1").toList)
    (("fly_home").toList) [((("x").toList), (("1").toList))] (by decide) (by decide)

theorem isPrefixOf_append_self (p s : List Char) : p.isPrefixOf (p ++ s) = true := by
  induction p with
  | nil => exact List.isPrefixOf_nil_left
  | cons x xs ih => simp [List.isPrefixOf, ih]

theorem containsSub_of_prefix {p s : List Char} (h : p.isPrefixOf s = true) :
    containsSub p s = true := by
  cases s with
  | nil =>
    cases p with
    | nil => rfl
    | cons x xs => simp [List.isPrefixOf] at h
  | cons x xs => simp [containsSub, h]

theorem containsSub_tail {p : List Char} {x : Char} {xs : List Char}
    (h : containsSub p xs = true) : containsSub p (x :: xs) = true := by
  simp [containsSub, h]

theorem containsSub_cons_ne {c : Char} {pr : List Char} {x : Char} (xs : List Char)
    (hne : c ≠ x) : containsSub (c :: pr) (x :: xs) = containsSub (c :: pr) xs := by
  simp only [containsSub, List.isPrefixOf]
  rw [show (c == x) = false from beq_eq_false_iff_ne.mpr hne]
  simp

theorem prefix_through_append {c : Char} {b : List Char} :
    ∀ {p a : List Char}, p.isPrefixOf (a ++ c :: b) = true → c ∉ p → p.isPrefixOf a = true := by
  intro p
  induction p with
  | nil => intro a _ _; exact List.isPrefixOf_nil_left
  | cons x xs ih =>
    intro a h hc
    cases a with
    | nil =>
      simp only [List.nil_append, List.isPrefixOf, Bool.and_eq_true, beq_iff_eq] at h
      exact absurd (h.1 ▸ List.mem_cons_self x xs) hc
    | cons y ys =>
      simp only [List.cons_append, List.isPrefixOf, Bool.and_eq_true] at h ⊢
      exact ⟨h.1, ih h.2 (fun hm => hc (List.mem_cons_of_mem _ hm))⟩

theorem containsSub_split {c : Char} {p b : List Char} :
    ∀ {a : List Char}, containsSub p (a ++ c :: b) = true → c ∉ p →
      containsSub p a = true ∨ containsSub p b = true := by
  intro a
  induction a with
  | nil =>
    intro h hc
    simp only [List.nil_append, containsSub, Bool.or_eq_true] at h
    rcases h with h1 | h2
    · cases p with
      | nil => left; rfl
      | cons x xs =>
        simp only [List.isPrefixOf, Bool.and_eq_true, beq_iff_eq] at h1
        exact absurd (h1.1 ▸ List.mem_cons_self x xs) hc
    · right; exact h2
  | cons y ys ih =>
    intro h hc
    simp only [List.cons_append, containsSub, Bool.or_eq_true] at h
    rcases h with h1 | h2
    · left
      have h1x : p.isPrefixOf ((y :: ys) ++ c :: b) = true := by
        rw [List.cons_append]; exact h1
      exact containsSub_of_prefix (prefix_through_append h1x hc)
    · rcases ih h2 hc with ha | hb
      · left; exact containsSub_tail ha
      · right; exact hb

theorem removeAllFuel_not_contains {p : List Char} :
    ∀ (fuel : Nat) (s : List Char), s.length ≤ fuel → containsSub p s = false →
      removeAllFuel p fuel s = s := by
  intro fuel
  induction fuel with
  | zero =>
    intro s hl _
    cases s with
    | nil => rfl
    | cons x xs => simp at hl
  | succ f ih =>
    intro s hl hc
    cases s with
    | nil => rfl
    | cons x xs =>
      rw [containsSub, Bool.or_eq_false_iff] at hc
      simp only [removeAllFuel, hc.1, Bool.false_and, Bool.false_eq_true, if_false]
      rw [ih xs (Nat.le_of_succ_le_succ hl) hc.2]

theorem removeAllFuel_congr {p : List Char} :
    ∀ (f1 f2 : Nat) (s : List Char), s.length ≤ f1 → s.length ≤ f2 →
      removeAllFuel p f1 s = removeAllFuel p f2 s := by
  intro f1
  induction f1 with
  | zero =>
    intro f2 s h1 _
    cases s with
    | nil => cases f2 <;> rfl
    | cons x xs => simp at h1
  | succ f ih =>
    intro f2 s h1 h2
    cases s with
    | nil => cases f2 <;> rfl
    | cons x xs =>
      cases f2 with
      | zero => simp at h2
      | succ g =>
        simp only [removeAllFuel]
        by_cases hp : (p.isPrefixOf (x :: xs) && !p.isEmpty) = true
        · rw [if_pos hp, if_pos hp]
          have hd1 : (xs.drop (p.length - 1)).length ≤ f := by
            rw [List.length_drop]
            exact le_trans (Nat.sub_le _ _) (Nat.le_of_succ_le_succ h1)
          have hd2 : (xs.drop (p.length - 1)).length ≤ g := by
            rw [List.length_drop]
            exact le_trans (Nat.sub_le _ _) (Nat.le_of_succ_le_succ h2)
          exact ih g _ hd1 hd2
        · rw [if_neg hp, if_neg hp]
          rw [ih g xs (Nat.le_of_succ_le_succ h1) (Nat.le_of_succ_le_succ h2)]

theorem removeAll_not_contains {p s : List Char} (h : containsSub p s = false) :
    removeAll p s = s :=
  removeAllFuel_not_contains s.length s le_rfl h

theorem removeAll_marker {p rest : List Char} (hp : p ≠ [])
    (h : containsSub p rest = false) : removeAll p (p ++ rest) = rest := by
  cases p with
  | nil => exact absurd rfl hp
  | cons x xs =>
    show removeAllFuel (x :: xs) ((x :: xs) ++ rest).length ((x :: xs) ++ rest) = rest
    rw [List.cons_append, List.length_cons]
    have hcond : ((x :: xs).isPrefixOf (x :: (xs ++ rest)) && !(x :: xs).isEmpty) = true := by
      rw [show x :: (xs ++ rest) = (x :: xs) ++ rest from rfl, isPrefixOf_append_self]
      rfl
    simp only [removeAllFuel, hcond, if_true]
    have hdrop : (xs ++ rest).drop ((x :: xs).length - 1) = rest := by
      rw [List.length_cons, Nat.add_sub_cancel]
      exact List.drop_left xs rest
    rw [hdrop]
    rw [removeAllFuel_congr _ rest.length rest ?_ le_rfl]
    · exact removeAllFuel_not_contains rest.length rest le_rfl h
    · rw [List.length_append]
      exact Nat.le_add_left _ _

theorem dropWhile_eq_self_of_head {s : List Char}
    (h : s.head?.all (fun c => !pyIsSpace c) = true) : s.dropWhile pyIsSpace = s := by
  cases s with
  | nil => rfl
  | cons x xs =>
    simp only [List.head?_cons, Option.all_some, Bool.not_eq_true'] at h
    simp [List.dropWhile_cons, h]

theorem stripL_eq_self {s : List Char} (h : noEdgeSpace s = true) : stripL s = s := by
  rw [noEdgeSpace, Bool.and_eq_true] at h
  unfold stripL
  rw [dropWhile_eq_self_of_head h.1]
  rw [dropWhile_eq_self_of_head (by rw [List.head?_reverse]; exact h.2)]
  exact List.reverse_reverse s

theorem stripL_cons_space {x : Char} (hx : pyIsSpace x = true) (s : List Char) :
    stripL (x :: s) = stripL s := by
  unfold stripL
  rw [List.dropWhile_cons, if_pos hx]

theorem stripL_append_space {s : List Char} (hs : s ≠ []) (h : noEdgeSpace s = true) :
    stripL (s ++ [' ']) = s := by
  rw [noEdgeSpace, Bool.and_eq_true] at h
  unfold stripL
  have h1 : (s ++ [' ']).dropWhile pyIsSpace = s ++ [' '] := by
    apply dropWhile_eq_self_of_head
    cases s with
    | nil => exact absurd rfl hs
    | cons x xs => simpa using h.1
  rw [h1, List.reverse_append]
  rw [show ([' '] : List Char).reverse ++ s.reverse = ' ' :: s.reverse from rfl]
  rw [List.dropWhile_cons, if_pos (by decide : pyIsSpace ' ' = true)]
  rw [dropWhile_eq_self_of_head (by rw [List.head?_reverse]; exact h.2)]
  exact List.reverse_reverse s

theorem getLast?_append_cons (a : List Char) (c : Char) (l : List Char) :
    (a ++ c :: l).getLast? = (c :: l).getLast? := by
  rw [List.getLast?_append]
  cases hcl : (c :: l).getLast? with
  | none =>
    rw [List.getLast?_eq_none_iff] at hcl
    cases hcl
  | some y => rfl

theorem getLast?_cons_ne {c : Char} {l : List Char} (h : l ≠ []) :
    (c :: l).getLast? = l.getLast? := by
  cases l with
  | nil => exact absurd rfl h
  | cons y ys => exact List.getLast?_cons_cons

theorem head?_append_left {a : List Char} (b : List Char) (h : a ≠ []) :
    (a ++ b).head? = a.head? := by
  cases a with
  | nil => exact absurd rfl h
  | cons x xs => rfl

theorem splitChar_ne_nil (c : Char) : ∀ (s : List Char), splitChar c s ≠ [] := by
  intro s
  induction s with
  | nil => simp [splitChar]
  | cons x xs ih =>
    simp only [splitChar]
    cases h : splitChar c xs with
    | nil => simp
    | cons y ys => by_cases hx : x = c <;> simp [hx]

theorem splitChar_not_mem {c : Char} : ∀ {s : List Char}, c ∉ s → splitChar c s = [s] := by
  intro s
  induction s with
  | nil => intro _; rfl
  | cons x xs ih =>
    intro h
    have hx : x ≠ c := fun he => h (he ▸ List.mem_cons_self x xs)
    have hxs : c ∉ xs := fun hm => h (List.mem_cons_of_mem _ hm)
    simp only [splitChar, ih hxs]
    simp [hx]

theorem splitChar_append {c : Char} {a : List Char} (b : List Char) (h : c ∉ a) :
    splitChar c (a ++ c :: b) = a :: splitChar c b := by
  induction a with
  | nil =>
    simp only [List.nil_append, splitChar]
    cases hb : splitChar c b with
    | nil => exact absurd hb (splitChar_ne_nil c b)
    | cons y ys => simp
  | cons x xs ih =>
    have hx : x ≠ c := fun he => h (he ▸ List.mem_cons_self x xs)
    have hxs : c ∉ xs := fun hm => h (List.mem_cons_of_mem _ hm)
    rw [List.cons_append]
    simp only [splitChar, ih hxs]
    simp [hx]

theorem splitFirst_eq {v : List Char} : ∀ {k : List Char}, '=' ∉ k →
    splitFirst '=' (k ++ '=' :: v) = some (k, v) := by
  intro k
  induction k with
  | nil => intro _; simp [splitFirst]
  | cons x xs ih =>
    intro h
    have hx : x ≠ '=' := fun he => h (he ▸ List.mem_cons_self x xs)
    rw [List.cons_append]
    simp only [splitFirst, if_neg hx, ih (fun hm => h (List.mem_cons_of_mem _ hm))]
    rfl

theorem pieceOf_ne_nil (kv : List Char × List Char) : pieceOf kv ≠ [] := by
  simp [pieceOf]

theorem serializeParams_ne_nil (kv : List Char × List Char)
    (rest : List (List Char × List Char)) : serializeParams (kv :: rest) ≠ [] := by
  cases rest with
  | nil => simpa [serializeParams] using pieceOf_ne_nil kv
  | cons r rs => simp [serializeParams, pieceOf]

theorem not_mem_pieceOf {c : Char} {kv : List Char × List Char}
    (h1 : c ∉ kv.1) (h2 : c ∉ kv.2) (h3 : c ≠ '=') : c ∉ pieceOf kv := by
  simp only [pieceOf, List.mem_append, List.mem_cons]
  rintro (h | h | h)
  · exact h1 h
  · exact h3 h
  · exact h2 h

theorem not_mem_serializeParams {c : Char} (hc : c ≠ '=' ∧ c ≠ ',' ∧ c ≠ ' ') :
    ∀ {ps : List (List Char × List Char)},
      (∀ kv ∈ ps, c ∉ kv.1 ∧ c ∉ kv.2) → c ∉ serializeParams ps := by
  intro ps
  induction ps with
  | nil => intro _; simp [serializeParams]
  | cons kv rest ih =>
    intro h
    have hkv := h kv (List.mem_cons_self kv rest)
    cases rest with
    | nil => simpa [serializeParams] using not_mem_pieceOf hkv.1 hkv.2 hc.1
    | cons r rs =>
      show c ∉ pieceOf kv ++ ',' :: ' ' :: serializeParams (r :: rs)
      simp only [List.mem_append, List.mem_cons]
      rintro (h1 | h1 | h1 | h1)
      · exact not_mem_pieceOf hkv.1 hkv.2 hc.1 h1
      · exact hc.2.1 h1
      · exact hc.2.2 h1
      · exact ih (fun p hp => h p (List.mem_cons_of_mem _ hp)) h1

theorem noEdgeSpace_head {l : List Char} (h : noEdgeSpace l = true) :
    l.head?.all (fun c => !pyIsSpace c) = true := by
  rw [noEdgeSpace, Bool.and_eq_true] at h
  exact h.1

theorem noEdgeSpace_getLast {l : List Char} (h : noEdgeSpace l = true) :
    l.getLast?.all (fun c => !pyIsSpace c) = true := by
  rw [noEdgeSpace, Bool.and_eq_true] at h
  exact h.2

theorem serializeParams_getLast :
    ∀ {ps : List (List Char × List Char)}, ps ≠ [] →
      (∀ kv ∈ ps, noEdgeSpace kv.2 = true) →
      (serializeParams ps).getLast?.all (fun c => !pyIsSpace c) = true := by
  intro ps
  induction ps with
  | nil => intro hn _; exact absurd rfl hn
  | cons kv rest ih =>
    intro _ h
    cases rest with
    | nil =>
      show (pieceOf kv).getLast?.all (fun c => !pyIsSpace c) = true
      rw [pieceOf, getLast?_append_cons]
      cases hv : kv.2 with
      | nil => decide
      | cons v vs =>
        rw [getLast?_cons_ne (by simp)]
        have hkv := noEdgeSpace_getLast (h kv (List.mem_cons_self kv []))
        rw [hv] at hkv
        exact hkv
    | cons r rs =>
      show (pieceOf kv ++ ',' :: ' ' :: serializeParams (r :: rs)).getLast?.all
        (fun c => !pyIsSpace c) = true
      rw [getLast?_append_cons, getLast?_cons_ne (by simp),
        getLast?_cons_ne (serializeParams_ne_nil r rs)]
      exact ih (by simp) (fun p hp => h p (List.mem_cons_of_mem _ hp))

theorem serializeParams_head :
    ∀ {ps : List (List Char × List Char)}, ps ≠ [] →
      (∀ kv ∈ ps, noEdgeSpace kv.1 = true) →
      (serializeParams ps).head?.all (fun c => !pyIsSpace c) = true := by
  intro ps
  induction ps with
  | nil => intro hn _; exact absurd rfl hn
  | cons kv rest _ =>
    intro _ h
    have hpiece : (pieceOf kv).head?.all (fun c => !pyIsSpace c) = true := by
      rw [pieceOf]
      cases hk : kv.1 with
      | nil =>
        rw [List.nil_append, List.head?_cons]
        decide
      | cons a as =>
        rw [head?_append_left _ (by simp)]
        have hkv := noEdgeSpace_head (h kv (List.mem_cons_self kv rest))
        rw [hk] at hkv
        exact hkv
    cases rest with
    | nil => exact hpiece
    | cons r rs =>
      show (pieceOf kv ++ ',' :: ' ' :: serializeParams (r :: rs)).head?.all
        (fun c => !pyIsSpace c) = true
      rw [head?_append_left _ (pieceOf_ne_nil kv)]
      exact hpiece

theorem containsSub_paramsMarker_cons_space (s : List Char) :
    containsSub paramsMarker (' ' :: s) = containsSub paramsMarker s := by
  rw [show paramsMarker =
    'P' :: ('a' :: 'r' :: 'a' :: 'm' :: 'e' :: 't' :: 'e' :: 'r' :: 's' :: ':' :: []) from rfl]
  exact containsSub_cons_ne _ (by decide)

theorem containsSub_toolMarker_cons_space (s : List Char) :
    containsSub toolMarker (' ' :: s) = containsSub toolMarker s := by
  rw [show toolMarker = 'T' :: ('o' :: 'o' :: 'l' :: ':' :: []) from rfl]
  exact containsSub_cons_ne _ (by decide)

theorem paramsMarker_not_in_serialize :
    ∀ {ps : List (List Char × List Char)},
      (∀ kv ∈ ps, containsSub paramsMarker kv.1 = false ∧
        containsSub paramsMarker kv.2 = false) →
      containsSub paramsMarker (serializeParams ps) = false := by
  intro ps
  induction ps with
  | nil => intro _; rfl
  | cons kv rest ih =>
    intro h
    have hkv := h kv (List.mem_cons_self kv rest)
    cases rest with
    | nil =>
      cases hcc : containsSub paramsMarker (serializeParams [kv]) with
      | false => rfl
      | true =>
        exfalso
        simp only [serializeParams, pieceOf] at hcc
        rcases containsSub_split hcc (by decide) with h1 | h1
        · rw [hkv.1] at h1; cases h1
        · rw [hkv.2] at h1; cases h1
    | cons r rs =>
      cases hcc : containsSub paramsMarker (serializeParams (kv :: r :: rs)) with
      | false => rfl
      | true =>
        exfalso
        rw [show serializeParams (kv :: r :: rs) =
          pieceOf kv ++ ',' :: (' ' :: serializeParams (r :: rs)) from rfl] at hcc
        rcases containsSub_split hcc (by decide) with h1 | h1
        · rw [pieceOf] at h1
          rcases containsSub_split h1 (by decide) with h2 | h2
          · rw [hkv.1] at h2; cases h2
          · rw [hkv.2] at h2; cases h2
        · rw [containsSub_paramsMarker_cons_space] at h1
          rw [ih (fun p hp => h p (List.mem_cons_of_mem _ hp))] at h1
          cases h1

theorem comma_not_in_pieceOf {kv : List Char × List Char}
    (h1 : ',' ∉ kv.1) (h2 : ',' ∉ kv.2) : ',' ∉ pieceOf kv :=
  not_mem_pieceOf h1 h2 (by decide)

theorem splitChar_spaced :
    ∀ (qs : List (List Char × List Char)) (q : List Char × List Char),
      (∀ kv ∈ q :: qs, ',' ∉ kv.1 ∧ ',' ∉ kv.2) →
      splitChar ',' (' ' :: serializeParams (q :: qs)) =
        (q :: qs).map (fun p => ' ' :: pieceOf p) := by
  intro qs
  induction qs with
  | nil =>
    intro q h
    have hq := h q (List.mem_cons_self q [])
    show splitChar ',' (' ' :: pieceOf q) = [' ' :: pieceOf q]
    refine splitChar_not_mem ?_
    intro hm
    rcases List.mem_cons.mp hm with h1 | h1
    · exact (by decide : (',' : Char) ≠ ' ') h1
    · exact comma_not_in_pieceOf hq.1 hq.2 h1
  | cons r rs ih =>
    intro q h
    have hq := h q (List.mem_cons_self q (r :: rs))
    show splitChar ','
      ((' ' :: pieceOf q) ++ ',' :: (' ' :: serializeParams (r :: rs))) = _
    rw [splitChar_append _ ?_]
    · rw [ih r (fun p hp => h p (List.mem_cons_of_mem _ hp))]
      rfl
    · intro hm
      rcases List.mem_cons.mp hm with h1 | h1
      · exact (by decide : (',' : Char) ≠ ' ') h1
      · exact comma_not_in_pieceOf hq.1 hq.2 h1

theorem splitChar_serialize (kv : List Char × List Char)
    (rest : List (List Char × List Char))
    (h : ∀ p ∈ kv :: rest, ',' ∉ p.1 ∧ ',' ∉ p.2) :
    splitChar ',' (serializeParams (kv :: rest)) =
      pieceOf kv :: rest.map (fun p => ' ' :: pieceOf p) := by
  have hkv := h kv (List.mem_cons_self kv rest)
  cases rest with
  | nil =>
    show splitChar ',' (pieceOf kv) = [pieceOf kv]
    exact splitChar_not_mem (comma_not_in_pieceOf hkv.1 hkv.2)
  | cons r rs =>
    show splitChar ',' (pieceOf kv ++ ',' :: (' ' :: serializeParams (r :: rs))) = _
    rw [splitChar_append _ (comma_not_in_pieceOf hkv.1 hkv.2)]
    rw [splitChar_spaced rs r (fun p hp => h p (List.mem_cons_of_mem _ hp))]

theorem dictInsert_append {m : List (List Char × List Char)} {k v : List Char}
    (h : k ∉ m.map Prod.fst) : dictInsert m k v = m ++ [(k, v)] := by
  unfold dictInsert
  rw [if_neg ?_]
  intro hany
  rw [List.any_eq_true] at hany
  obtain ⟨p, hp, hpk⟩ := hany
  rw [beq_iff_eq] at hpk
  exact h (hpk ▸ List.mem_map_of_mem Prod.fst hp)

theorem paramStep_spaced (acc : List (List Char × List Char)) (q : List Char × List Char)
    (he : '=' ∉ q.1) (h1 : noEdgeSpace q.1 = true) (h2 : noEdgeSpace q.2 = true)
    (hk : q.1 ∉ acc.map Prod.fst) :
    paramStep acc (' ' :: pieceOf q) = acc ++ [q] := by
  unfold paramStep
  have hsf : splitFirst '=' (' ' :: pieceOf q) = some (' ' :: q.1, q.2) := by
    show splitFirst '=' ((' ' :: q.1) ++ '=' :: q.2) = some (' ' :: q.1, q.2)
    refine splitFirst_eq ?_
    intro hm
    rcases List.mem_cons.mp hm with hx | hx
    · exact (by decide : ('=' : Char) ≠ ' ') hx
    · exact he hx
  rw [hsf]
  show dictInsert acc (stripL (' ' :: q.1)) (stripL q.2) = acc ++ [q]
  rw [stripL_cons_space (by decide) q.1, stripL_eq_self h1, stripL_eq_self h2]
  rw [dictInsert_append hk]

theorem paramStep_first (q : List Char × List Char)
    (he : '=' ∉ q.1) (h1 : noEdgeSpace q.1 = true) (h2 : noEdgeSpace q.2 = true) :
    paramStep [] (pieceOf q) = [q] := by
  unfold paramStep
  rw [show pieceOf q = q.1 ++ '=' :: q.2 from rfl, splitFirst_eq he]
  show dictInsert [] (stripL q.1) (stripL q.2) = [q]
  rw [stripL_eq_self h1, stripL_eq_self h2, dictInsert_append (by simp)]
  rfl

theorem foldl_paramStep_spaced :
    ∀ (rest : List (List Char × List Char)) (acc : List (List Char × List Char)),
      (∀ kv ∈ rest, '=' ∉ kv.1 ∧ noEdgeSpace kv.1 = true ∧ noEdgeSpace kv.2 = true) →
      ((acc ++ rest).map Prod.fst).Nodup →
      List.foldl paramStep acc (rest.map (fun p => ' ' :: pieceOf p)) = acc ++ rest := by
  intro rest
  induction rest with
  | nil => intro acc _ _; simp
  | cons q qs ih =>
    intro acc hc hnd
    have hq := hc q (List.mem_cons_self q qs)
    have hknotin : q.1 ∉ acc.map Prod.fst := by
      intro hin
      rw [List.map_append] at hnd
      have hdisj := List.disjoint_of_nodup_append hnd
      exact hdisj hin (by simp)
    simp only [List.map_cons, List.foldl_cons]
    rw [paramStep_spaced acc q hq.1 hq.2.1 hq.2.2 hknotin]
    have hre : (acc ++ [q]) ++ qs = acc ++ q :: qs := by simp
    rw [ih (acc ++ [q]) (fun p hp => hc p (List.mem_cons_of_mem _ hp)) (by rw [hre]; exact hnd)]
    exact hre

theorem parseParams_serialize {ps : List (List Char × List Char)}
    (h : ∀ kv ∈ ps, ',' ∉ kv.1 ∧ ',' ∉ kv.2 ∧ '=' ∉ kv.1 ∧
      noEdgeSpace kv.1 = true ∧ noEdgeSpace kv.2 = true)
    (hnd : (ps.map Prod.fst).Nodup) :
    parseParams (serializeParams ps) = ps := by
  cases ps with
  | nil => rfl
  | cons kv rest =>
    have hkv := h kv (List.mem_cons_self kv rest)
    unfold parseParams
    rw [splitChar_serialize kv rest (fun p hp => ⟨(h p hp).1, (h p hp).2.1⟩)]
    simp only [List.foldl_cons]
    rw [paramStep_first kv hkv.2.2.1 hkv.2.2.2.1 hkv.2.2.2.2]
    exact foldl_paramStep_spaced rest [kv]
      (fun p hp => ⟨(h p (List.mem_cons_of_mem _ hp)).2.2.1,
        (h p (List.mem_cons_of_mem _ hp)).2.2.2.1,
        (h p (List.mem_cons_of_mem _ hp)).2.2.2.2⟩)
      (by simpa using hnd)

theorem paramsMarker_not_prefix_toolLine (name : List Char) :
    paramsMarker.isPrefixOf (toolMarker ++ ' ' :: name) = false := by
  show ((('P' : Char) == 'T') &&
    List.isPrefixOf ('a' :: 'r' :: 'a' :: 'm' :: 'e' :: 't' :: 'e' :: 'r' :: 's' :: ':' :: [])
      ('o' :: 'o' :: 'l' :: ':' :: ' ' :: name)) = false
  rw [show (('P' : Char) == 'T') = false by decide, Bool.false_and]

theorem newline_not_mem_toolLine {name : List Char} (hn3 : '\n' ∉ name) :
    '\n' ∉ toolMarker ++ ' ' :: name := by
  intro hm
  rcases List.mem_append.mp hm with h | h
  · exact (by decide : ('\n' : Char) ∉ toolMarker) h
  · rcases List.mem_cons.mp h with h | h
    · exact (by decide : ('\n' : Char) ≠ ' ') h
    · exact hn3 h

/-- C8 amended: the round trip holds when, besides the stated conditions on
commas, equals signs and edge whitespace, the name and the keys and values
contain no newline, the name does not contain the marker text `Tool:`, and
keys and values do not contain the marker text `Parameters:`; duplicate keys
in arbitrary parsed input resolve to the last occurrence. -/
theorem c8_parser_round_trip (name : List Char) (ps : List (List Char × List Char))
    (hn1 : noEdgeSpace name = true)
    (hn2 : containsSub toolMarker name = false)
    (hn3 : '\n' ∉ name)
    (hnd : (ps.map Prod.fst).Nodup)
    (hps : ∀ kv ∈ ps,
      ',' ∉ kv.1 ∧ ',' ∉ kv.2 ∧ '=' ∉ kv.1 ∧ '=' ∉ kv.2 ∧
      '\n' ∉ kv.1 ∧ '\n' ∉ kv.2 ∧
      containsSub paramsMarker kv.1 = false ∧ containsSub paramsMarker kv.2 = false ∧
      noEdgeSpace kv.1 = true ∧ noEdgeSpace kv.2 = true) :
    parseResponse (serializeToolCall name ps) = Parsed.toolCall name ps ∧
    parseParams (("k=a, k=b").toList) = [((("k").toList), (("b").toList))] := by
  refine ⟨?_, by decide⟩
  have hct : containsSub toolMarker (serializeToolCall name ps) = true :=
    containsSub_of_prefix (isPrefixOf_append_self toolMarker _)
  have hnameline : '\n' ∉ toolMarker ++ ' ' :: name := newline_not_mem_toolLine hn3
  have hcontTool : containsSub toolMarker (' ' :: name) = false := by
    rw [containsSub_toolMarker_cons_space]
    exact hn2
  cases ps with
  | nil =>
    have hser : serializeToolCall name [] =
        ((toolMarker ++ ' ' :: name) ++ '\n' :: paramsMarker) ++ [' '] := by
      unfold serializeToolCall
      simp [serializeParams, List.append_assoc]
    have hpre : noEdgeSpace ((toolMarker ++ ' ' :: name) ++ '\n' :: paramsMarker) = true := by
      rw [noEdgeSpace, Bool.and_eq_true]
      constructor
      · rfl
      · rw [getLast?_append_cons]
        decide
    have hstrip : stripL (serializeToolCall name []) =
        (toolMarker ++ ' ' :: name) ++ '\n' :: paramsMarker := by
      rw [hser]
      exact stripL_append_space (by simp) hpre
    rw [parseResponse, if_pos hct, hstrip]
    rw [splitChar_append paramsMarker hnameline]
    rw [splitChar_not_mem (by decide : ('\n' : Char) ∉ paramsMarker)]
    rw [List.find?_cons]
    simp only [isPrefixOf_append_self]
    rw [List.find?_cons]
    simp only [paramsMarker_not_prefix_toolLine]
    rw [List.find?_cons]
    simp only [show paramsMarker.isPrefixOf paramsMarker = true by decide]
    show Parsed.toolCall (stripL (removeAll toolMarker (toolMarker ++ ' ' :: name)))
      (parseParams (stripL (removeAll paramsMarker paramsMarker))) = Parsed.toolCall name []
    rw [removeAll_marker (by decide) hcontTool]
    rw [stripL_cons_space (by decide) name, stripL_eq_self hn1]
    rw [show parseParams (stripL (removeAll paramsMarker paramsMarker)) = [] by decide]
  | cons kv rest =>
    have hassoc : serializeToolCall name (kv :: rest) =
        (toolMarker ++ ' ' :: name) ++
          '\n' :: (paramsMarker ++ ' ' :: serializeParams (kv :: rest)) := by
      unfold serializeToolCall
      simp [List.append_assoc]
    have hbodyne : serializeParams (kv :: rest) ≠ [] := serializeParams_ne_nil kv rest
    have hbodyhead : (serializeParams (kv :: rest)).head?.all (fun c => !pyIsSpace c) = true :=
      serializeParams_head (by simp) (fun p hp => (hps p hp).2.2.2.2.2.2.2.2.1)
    have hbodylast : (serializeParams (kv :: rest)).getLast?.all (fun c => !pyIsSpace c) = true :=
      serializeParams_getLast (by simp) (fun p hp => (hps p hp).2.2.2.2.2.2.2.2.2)
    have hnoedge : noEdgeSpace (serializeToolCall name (kv :: rest)) = true := by
      rw [noEdgeSpace, Bool.and_eq_true]
      constructor
      · rfl
      · rw [hassoc, getLast?_append_cons, getLast?_cons_ne (by simp), getLast?_append_cons,
          getLast?_cons_ne hbodyne]
        exact hbodylast
    have hstrip : stripL (serializeToolCall name (kv :: rest)) =
        serializeToolCall name (kv :: rest) := stripL_eq_self hnoedge
    have hnl2 : '\n' ∉ paramsMarker ++ ' ' :: serializeParams (kv :: rest) := by
      intro hm
      rcases List.mem_append.mp hm with h | h
      · exact (by decide : ('\n' : Char) ∉ paramsMarker) h
      · rcases List.mem_cons.mp h with h | h
        · exact (by decide : ('\n' : Char) ≠ ' ') h
        · exact not_mem_serializeParams (by decide)
            (fun p hp => ⟨(hps p hp).2.2.2.2.1, (hps p hp).2.2.2.2.2.1⟩) h
    rw [parseResponse, if_pos hct, hstrip, hassoc]
    rw [splitChar_append _ hnameline]
    rw [splitChar_not_mem hnl2]
    rw [List.find?_cons]
    simp only [isPrefixOf_append_self]
    rw [List.find?_cons]
    simp only [paramsMarker_not_prefix_toolLine]
    rw [List.find?_cons]
    simp only [isPrefixOf_append_self]
    show Parsed.toolCall (stripL (removeAll toolMarker (toolMarker ++ ' ' :: name)))
        (parseParams (stripL (removeAll paramsMarker
          (paramsMarker ++ ' ' :: serializeParams (kv :: rest))))) =
      Parsed.toolCall name (kv :: rest)
    rw [removeAll_marker (by decide) hcontTool]
    rw [stripL_cons_space (by decide) name, stripL_eq_self hn1]
    have hcontP : containsSub paramsMarker (' ' :: serializeParams (kv :: rest)) = false := by
      rw [containsSub_paramsMarker_cons_space]
      exact paramsMarker_not_in_serialize
        (fun p hp => ⟨(hps p hp).2.2.2.2.2.2.1, (hps p hp).2.2.2.2.2.2.2.1⟩)
    rw [removeAll_marker (by decide) hcontP]
    rw [stripL_cons_space (by decide), stripL_eq_self (by
      rw [noEdgeSpace, Bool.and_eq_true]
      exact ⟨hbodyhead, hbodylast⟩)]
    rw [parseParams_serialize (fun p hp =>
        ⟨(hps p hp).1, (hps p hp).2.1, (hps p hp).2.2.1,
          (hps p hp).2.2.2.2.2.2.2.2.1, (hps p hp).2.2.2.2.2.2.2.2.2⟩) hnd]

theorem c8_parser_round_trip_witness :
    parseResponse (serializeToolCall (("update_trip_status").toList)
        [((("status").toList), (("at_pickup").toList)),
         ((("notes").toList), (("arrived").toList))]) =
      Parsed.toolCall (("update_trip_status").toList)
        [((("status").toList), (("at_pickup").toList)),
         ((("notes").toList), (("arrived").toList))] :=
  (c8_parser_round_trip (("update_trip_status").toList)
    [((("status").toList), (("at_pickup").toList)),
     ((("notes").toList), (("arrived").toList))]
    (by decide) (by decide) (by decide) (by decide) (by decide)).1

theorem c8_parser_round_trip_counterexample :
    (parseResponse (serializeToolCall (("t").toList)
        [((("k").toList), (("Parameters:v").toList))]) =
      Parsed.toolCall (("t").toList) [((("k").toList), (("v").toList))] ∧
      (("v").toList) ≠ (("Parameters:v").toList) ∧
      (("Parameters:v").toList).all (fun c => !(c = ',' || c = '=')) = true ∧
      noEdgeSpace (("Parameters:v").toList) = true) ∧
    (parseResponse (serializeToolCall ((" t").toList) []) =
      Parsed.toolCall (("t").toList) [] ∧ (("t").toList) ≠ ((" t").toList)) ∧
    (parseResponse (serializeToolCall (("t").toList)
        [((("k").toList), (("a\nb").toList))]) =
      Parsed.toolCall (("t").toList) [((("k").toList), (("a").toList))] ∧
      (("a").toList) ≠ (("a\nb").toList)) := by
  refine ⟨⟨by decide, by decide, by decide, by decide⟩, ⟨by decide, by decide⟩,
    by decide, by decide⟩

end Logistik
